import Mathlib

/-!
Verification of the pool-analyzer core: tick bitmap decoding, batched tick
retrieval, price/tick conversions and liquidity-curve reconstruction.

The definitions below are shallow embeddings of the TypeScript source:
* `extractTicksFromWord`, `tickToWord`, `wordToTick`, `getAllTicks`
  embed `UniswapV3TickService` (bitmap scanner).
* `calculateTickIndices`, `retrieveTicksInBatches` (with the instrumented
  `batchChunks` / `batchDelayCount` views of the same loop) embed `TickUtils`.
* `findClosestTickIndex`, `walkDown`, `walkUp`,
  `calculateLiquidityDistribution` embed the liquidity-curve reconstruction
  of `format/charts.ts`.
* `tickToPrice`, `tickToPriceInQuoteTokens` embed `PriceUtils` over exact
  rationals (the JavaScript doubles are idealized as exact arithmetic; the
  claims settled against these are structural, not rounding claims).
* `JsNum`, `priceToTick`, `priceToSqrtPriceX96` embed the unguarded
  `PriceUtils` conversions together with the IEEE-754 special-value
  (NaN / infinity / sign) propagation of `Math.log`, `Math.sqrt`,
  `Math.floor`, division and the `BigInt` conversion, which is what the
  error-handling claims are about.  The finite value of the transcendental
  functions is a parameter (`logFin`, `sqrtFin`), their special-value
  behaviour is fixed by IEEE-754.

JavaScript `bigint` values are embedded as `ℤ`, array indices as `ℕ`.
-/

namespace PoolAnalyzer

/-- Uniswap V3 constant `MIN_TICK` (part_001). -/
def MIN_TICK : ℤ := -887272

/-- Uniswap V3 constant `MAX_TICK` (part_001). -/
def MAX_TICK : ℤ := 887272

/-- Constant `TICK_BITMAP_WORD_SIZE` (part_001). -/
def TICK_BITMAP_WORD_SIZE : ℕ := 256

/-- The per-tick record returned by `pool.ticks` (interface `TickData`).
The source field `initialized` is called `inited` here. -/
structure TickRecord where
  liquidityGross : ℤ
  liquidityNet : ℤ
  feeGrowthOutside0X128 : ℤ
  feeGrowthOutside1X128 : ℤ
  tickCumulativeOutside : ℤ
  secondsPerLiquidityOutsideX128 : ℤ
  secondsOutside : ℤ
  inited : Bool
deriving DecidableEq

/-- Interface `TickDataWithIndex` of `TickUtils`: a `TickRecord` together
with the tick index it belongs to. -/
structure TickDataWithIndex extends TickRecord where
  tickIndex : ℤ
deriving DecidableEq

/-- The zero-valued sentinel record used by `retrieveTicksInBatches` for a
failed lookup: all fields `0n`, `initialized: false`. -/
def sentinelRecord : TickRecord :=
  { liquidityGross := 0, liquidityNet := 0, feeGrowthOutside0X128 := 0,
    feeGrowthOutside1X128 := 0, tickCumulativeOutside := 0,
    secondsPerLiquidityOutsideX128 := 0, secondsOutside := 0, inited := false }

/-- The body of the per-index closure inside `retrieveTicksInBatches`: on a
successful lookup, spread the tick data and tag it with the index
(`{...tickData, tickIndex}`); on a failure (the `catch` branch), return the
zero-valued sentinel tagged with the index.  The remote `pool.ticks` call is
embedded as `lookup : ℤ → Option TickRecord`, `none` being a rejected
promise. -/
def fetchTick (lookup : ℤ → Option TickRecord) (tickIndex : ℤ) : TickDataWithIndex :=
  match lookup tickIndex with
  | some d => { toTickRecord := d, tickIndex := tickIndex }
  | none => { toTickRecord := sentinelRecord, tickIndex := tickIndex }

/-- Embedding of `TickUtils.retrieveTicksInBatches` (priceUtils.ts lines 564-610): the
loop `for (i = 0; i < tickIndices.length; i += batchSize)` slices the next
`batchSize` indices, maps the per-index closure over the slice
(`Promise.all` keeps the slice order) and appends the results.  With
`batchSize = 0` the JavaScript loop never terminates on a non-empty input;
that case is mapped to `[]` and excluded by the `0 < batchSize` hypothesis
of every theorem about this function. -/
def retrieveTicksInBatches (lookup : ℤ → Option TickRecord)
    (tickIndices : List ℤ) (batchSize : ℕ) : List TickDataWithIndex :=
  if h : tickIndices = [] ∨ batchSize = 0 then []
  else
    (tickIndices.take batchSize).map (fetchTick lookup) ++
      retrieveTicksInBatches lookup (tickIndices.drop batchSize) batchSize
termination_by tickIndices.length
decreasing_by
  push_neg at h
  have h1 : 0 < tickIndices.length := List.length_pos.mpr h.1
  have h2 : 0 < batchSize := Nat.pos_of_ne_zero h.2
  simp only [List.length_drop]
  omega

/-- The batch slices produced by the loop of `retrieveTicksInBatches`: the
value of `tickIndices.slice(i, i + batchSize)` for each executed iteration,
in execution order. -/
def batchChunks (tickIndices : List ℤ) (batchSize : ℕ) : List (List ℤ) :=
  if h : tickIndices = [] ∨ batchSize = 0 then []
  else tickIndices.take batchSize :: batchChunks (tickIndices.drop batchSize) batchSize
termination_by tickIndices.length
decreasing_by
  push_neg at h
  have h1 : 0 < tickIndices.length := List.length_pos.mpr h.1
  have h2 : 0 < batchSize := Nat.pos_of_ne_zero h.2
  simp only [List.length_drop]
  omega

/-- The number of inter-batch delay waits performed by
`retrieveTicksInBatches`: the loop sleeps after a batch exactly when
`i + batchSize < tickIndices.length`, i.e. when indices remain after the
current slice. -/
def batchDelayCount (tickIndices : List ℤ) (batchSize : ℕ) : ℕ :=
  if h : tickIndices = [] ∨ batchSize = 0 then 0
  else
    (if batchSize < tickIndices.length then 1 else 0) +
      batchDelayCount (tickIndices.drop batchSize) batchSize
termination_by tickIndices.length
decreasing_by
  push_neg at h
  have h1 : 0 < tickIndices.length := List.length_pos.mpr h.1
  have h2 : 0 < batchSize := Nat.pos_of_ne_zero h.2
  simp only [List.length_drop]
  omega

/-- Embedding of `TickUtils.calculateTickIndices`: `halfCount = Math.floor(tickCount/2)`,
`alignedTick = Math.floor(currentTick/tickSpacing)*tickSpacing`, then the
loop `for (i = -halfCount; i <= halfCount; i++)` pushes
`alignedTick + i*tickSpacing`.  `Math.floor` of a quotient is floor
division, `Int.fdiv`.  A negative `halfCount` makes the JavaScript loop
body never run, which `Int.toNat` reproduces. -/
def calculateTickIndices (currentTick tickSpacing tickCount : ℤ) : List ℤ :=
  let halfCount := tickCount.fdiv 2
  let alignedTick := (currentTick.fdiv tickSpacing) * tickSpacing
  (List.range (2 * halfCount + 1).toNat).map
    (fun k : ℕ => alignedTick + (-halfCount + (k : ℤ)) * tickSpacing)

/-- Embedding of `UniswapV3TickService.extractTicksFromWord` (part_001 lines 112-125).
The source converts the word to a binary string padded to 256 characters
and scans it left to right; character `i` of that string is bit
`255 - i` of the word (most-significant first).  For each set character the
tick `wordStartTick + i*tickSpacing` is pushed if it lies in
`[MIN_TICK, MAX_TICK]`.  Faithful for `word < 2^256` (a `uint256`). -/
def extractTicksFromWord (word : ℕ) (wordStartTick tickSpacing : ℤ) : List ℤ :=
  (List.range TICK_BITMAP_WORD_SIZE).filterMap (fun i =>
    if word.testBit (TICK_BITMAP_WORD_SIZE - 1 - i) then
      let tick := wordStartTick + (i : ℤ) * tickSpacing
      if MIN_TICK ≤ tick ∧ tick ≤ MAX_TICK then some tick else none
    else none)

/-- Embedding of `UniswapV3TickService.tickToWord`: `Math.floor(tick/tickSpacing/256)`,
i.e. the floor of the exact quotient `tick / (tickSpacing * 256)`. -/
def tickToWord (tick tickSpacing : ℤ) : ℤ :=
  tick.fdiv (tickSpacing * (TICK_BITMAP_WORD_SIZE : ℤ))

/-- Embedding of `UniswapV3TickService.wordToTick`: `word * 256 * tickSpacing`. -/
def wordToTick (word tickSpacing : ℤ) : ℤ :=
  word * (TICK_BITMAP_WORD_SIZE : ℤ) * tickSpacing

/-- Embedding of `UniswapV3TickService.getAllTicks` (part_001 lines 31-83).  The two
remote reads are embedded as `tickBitmap : ℤ → Option ℕ` and
`ticksF : ℤ → Option TickRecord`, `none` being a rejected promise.  Both
stages go through `Promise.all`, so a single rejection rejects the whole
call (`Option.none` result): there is no recovery in this function.  The
source's `throw` on a missing element after a successful `Promise.all` is
unreachable and has no counterpart here. -/
def getAllTicks (tickSpacing : ℤ) (tickBitmap : ℤ → Option ℕ)
    (ticksF : ℤ → Option TickRecord) : Option (List TickDataWithIndex) :=
  let minWord := tickToWord MIN_TICK tickSpacing
  let maxWord := tickToWord MAX_TICK tickSpacing
  let words := (List.range (maxWord - minWord + 1).toNat).map (fun i => minWord + (i : ℤ))
  match words.mapM tickBitmap with
  | none => none
  | some bitmapWords =>
    let initedTicks :=
      ((bitmapWords.enum).map (fun p =>
        if 0 < p.2 then
          extractTicksFromWord p.2 (wordToTick (minWord + (p.1 : ℤ)) tickSpacing) tickSpacing
        else [])).flatten
    if initedTicks = [] then some []
    else
      match initedTicks.mapM ticksF with
      | none => none
      | some tickDataResults =>
        some ((initedTicks.zip tickDataResults).map
          (fun p => { toTickRecord := p.2, tickIndex := p.1 }))

/-- Embedding of `TickUtils.findClosestTickIndex` (priceUtils.ts lines 618-631).  On an
empty array the source dereferences `ticks[0].tickIndex` and throws; that is
the `none` case.  Otherwise the scan keeps the first index of minimal
`Math.abs(tickIndex - currentTick)` (update only on strict `<`). -/
def findClosestTickIndex (ticks : List TickDataWithIndex) (currentTick : ℤ) : Option ℕ :=
  match ticks with
  | [] => none
  | t0 :: rest =>
    some ((rest.enum.foldl (fun acc p =>
      let dist := |p.2.tickIndex - currentTick|
      if dist < acc.2 then (p.1 + 1, dist) else acc)
      (0, |t0.tickIndex - currentTick|)).1)

/-- The downward loop of `calculateLiquidityDistribution`
(`for (i = closestTickIndex - 1; i >= 0; i--) runningLiquidity -= ticks[i].liquidityNet`),
applied to the `liquidityNet` values in visit order (position `anchor-1`
first): each step subtracts the visited tick's own net from the running
value and records the result. -/
def walkDown (running : ℤ) : List ℤ → List ℤ
  | [] => []
  | n :: rest => (running - n) :: walkDown (running - n) rest

/-- The upward loop of `calculateLiquidityDistribution`
(`for (i = closestTickIndex + 1; i < ticks.length; i++) runningLiquidity += ticks[i].liquidityNet`),
applied to the `liquidityNet` values in visit order (position `anchor+1`
first). -/
def walkUp (running : ℤ) : List ℤ → List ℤ
  | [] => []
  | n :: rest => (running + n) :: walkUp (running + n) rest

/-- Embedding of `calculateLiquidityDistribution` (charts.ts lines 9-43).  The anchor is
`findClosestTickIndex` (throwing on an empty window, the `none` case); the
curve consists of the downward walk over positions `0..anchor-1` (computed
from position `anchor-1` downwards, hence the reverses), the anchor value
`currentTickLiquidity` itself, and the upward walk over the remaining
positions. -/
def calculateLiquidityDistribution (ticks : List TickDataWithIndex)
    (currentTick currentTickLiquidity : ℤ) : Option (List ℤ) :=
  match findClosestTickIndex ticks currentTick with
  | none => none
  | some anchor =>
    let downNets := ((ticks.take anchor).map (fun t => t.liquidityNet)).reverse
    let upNets := (ticks.drop (anchor + 1)).map (fun t => t.liquidityNet)
    some ((walkDown currentTickLiquidity downNets).reverse ++
      [currentTickLiquidity] ++ walkUp currentTickLiquidity upNets)

/-- Embedding of `PriceUtils.tickToPrice`: `Math.pow(1.0001, tick)`,
idealized over exact rationals. -/
def tickToPrice (tick : ℤ) : ℚ :=
  (10001 / 10000 : ℚ) ^ tick

/-- Embedding of `PriceUtils.tickToPriceInQuoteTokens` (priceUtils.ts lines
29-42): adjust the raw ratio by dividing by `Math.pow(10, d1 - d0)` (the
exponent is an integer, possibly negative) and return the reciprocal when
token 0 is the quote token. -/
def tickToPriceInQuoteTokens (tick token0Decimals token1Decimals : ℤ)
    (zeroTokenIsQuoteToken : Bool) : ℚ :=
  let price := tickToPrice tick
  let adjustedPrice := price / (10 : ℚ) ^ (token1Decimals - token0Decimals)
  if zeroTokenIsQuoteToken then 1 / adjustedPrice else adjustedPrice

/-- A JavaScript `number` for the purposes of the unguarded conversions:
NaN, the two infinities, or a finite value (idealized as an exact
rational). -/
inductive JsNum where
  | nan : JsNum
  | posInf : JsNum
  | negInf : JsNum
  | fin : ℚ → JsNum
deriving DecidableEq

/-- IEEE-754 special-value behaviour of `Math.log`; the value on positive
finite inputs is the parameter `logFin` (the actual double result of the
transcendental, about which only the sign is ever needed).
`log(NaN) = NaN`, `log(x) = NaN` for `x < 0`, `log(0) = -Infinity`,
`log(Infinity) = Infinity`. -/
def jsLog (logFin : ℚ → ℚ) : JsNum → JsNum
  | JsNum.nan => JsNum.nan
  | JsNum.posInf => JsNum.posInf
  | JsNum.negInf => JsNum.nan
  | JsNum.fin q => if q < 0 then JsNum.nan else if q = 0 then JsNum.negInf else JsNum.fin (logFin q)

/-- IEEE-754 special-value behaviour of `Math.sqrt`; the value on
non-negative finite inputs is the parameter `sqrtFin` (IEEE requires
`sqrtFin 0 = 0`, stated as a hypothesis where used).
`sqrt(NaN) = NaN`, `sqrt(x) = NaN` for `x < 0`,
`sqrt(Infinity) = Infinity`. -/
def jsSqrt (sqrtFin : ℚ → ℚ) : JsNum → JsNum
  | JsNum.nan => JsNum.nan
  | JsNum.posInf => JsNum.posInf
  | JsNum.negInf => JsNum.nan
  | JsNum.fin q => if q < 0 then JsNum.nan else JsNum.fin (sqrtFin q)

/-- JavaScript division with IEEE-754 NaN/infinity/sign propagation;
finite-by-finite division is idealized as exact rational division, and the
negative zero is not distinguished from zero. -/
def jsDiv : JsNum → JsNum → JsNum
  | JsNum.nan, _ => JsNum.nan
  | _, JsNum.nan => JsNum.nan
  | JsNum.posInf, JsNum.posInf => JsNum.nan
  | JsNum.posInf, JsNum.negInf => JsNum.nan
  | JsNum.negInf, JsNum.posInf => JsNum.nan
  | JsNum.negInf, JsNum.negInf => JsNum.nan
  | JsNum.posInf, JsNum.fin d => if 0 ≤ d then JsNum.posInf else JsNum.negInf
  | JsNum.negInf, JsNum.fin d => if 0 ≤ d then JsNum.negInf else JsNum.posInf
  | JsNum.fin _, JsNum.posInf => JsNum.fin 0
  | JsNum.fin _, JsNum.negInf => JsNum.fin 0
  | JsNum.fin a, JsNum.fin d =>
    if d = 0 then
      if a = 0 then JsNum.nan else if 0 < a then JsNum.posInf else JsNum.negInf
    else JsNum.fin (a / d)

/-- JavaScript multiplication with IEEE-754 NaN/infinity/sign propagation;
finite-by-finite multiplication is idealized as exact rational
multiplication. -/
def jsMul : JsNum → JsNum → JsNum
  | JsNum.nan, _ => JsNum.nan
  | _, JsNum.nan => JsNum.nan
  | JsNum.posInf, JsNum.posInf => JsNum.posInf
  | JsNum.posInf, JsNum.negInf => JsNum.negInf
  | JsNum.negInf, JsNum.posInf => JsNum.negInf
  | JsNum.negInf, JsNum.negInf => JsNum.posInf
  | JsNum.posInf, JsNum.fin d =>
    if d = 0 then JsNum.nan else if 0 < d then JsNum.posInf else JsNum.negInf
  | JsNum.fin d, JsNum.posInf =>
    if d = 0 then JsNum.nan else if 0 < d then JsNum.posInf else JsNum.negInf
  | JsNum.negInf, JsNum.fin d =>
    if d = 0 then JsNum.nan else if 0 < d then JsNum.negInf else JsNum.posInf
  | JsNum.fin d, JsNum.negInf =>
    if d = 0 then JsNum.nan else if 0 < d then JsNum.negInf else JsNum.posInf
  | JsNum.fin a, JsNum.fin b => JsNum.fin (a * b)

/-- JavaScript `Math.floor`: exact on finite doubles, identity on the
infinities, NaN on NaN. -/
def jsFloor : JsNum → JsNum
  | JsNum.nan => JsNum.nan
  | JsNum.posInf => JsNum.posInf
  | JsNum.negInf => JsNum.negInf
  | JsNum.fin q => JsNum.fin (⌊q⌋ : ℤ)

/-- JavaScript `BigInt(x)`: defined only on finite integral numbers, a
`RangeError` (the `Except.error` case) on NaN, the infinities and
non-integral values. -/
def jsToBigInt : JsNum → Except Unit ℤ
  | JsNum.fin q => if q.den = 1 then Except.ok q.num else Except.error ()
  | _ => Except.error ()

/-- Embedding of `PriceUtils.priceToTick` (priceUtils.ts lines 25-27):
`Math.floor(Math.log(price) / Math.log(1.0001))`, with no validation of
`price` anywhere and no exception path: the function returns a `JsNum` for
every input. -/
def priceToTick (logFin : ℚ → ℚ) (price : JsNum) : JsNum :=
  jsFloor (jsDiv (jsLog logFin price) (jsLog logFin (JsNum.fin (10001 / 10000))))

/-- Embedding of `PriceUtils.priceToSqrtPriceX96` (priceUtils.ts lines
16-20): divide by `Math.pow(10, d1 - d0)`, take the square root with no
guard on the sign of the price, scale by `2^96`, floor, and convert with
`BigInt` (the only failing step: a `RangeError` when the accumulated value
is NaN or infinite). -/
def priceToSqrtPriceX96 (sqrtFin : ℚ → ℚ) (price : JsNum)
    (token0Decimals token1Decimals : ℤ) : Except Unit ℤ :=
  let adjustedPrice := jsDiv price (JsNum.fin ((10 : ℚ) ^ (token1Decimals - token0Decimals)))
  let sqrtPrice := jsSqrt sqrtFin adjustedPrice
  jsToBigInt (jsFloor (jsMul sqrtPrice (JsNum.fin ((2 : ℚ) ^ (96 : ℕ)))))

/-! ## Helper lemmas -/

theorem retrieve_eq_map (lookup : ℤ → Option TickRecord) (B : ℕ) (hB : 0 < B) :
    ∀ l : List ℤ, retrieveTicksInBatches lookup l B = l.map (fetchTick lookup) := by
  have key : ∀ n (l : List ℤ), l.length ≤ n →
      retrieveTicksInBatches lookup l B = l.map (fetchTick lookup) := by
    intro n
    induction n with
    | zero =>
      intro l hl
      have hnil : l = [] := List.eq_nil_of_length_eq_zero (Nat.le_zero.mp hl)
      subst hnil
      rw [retrieveTicksInBatches]
      simp
    | succ n ih =>
      intro l hl
      rw [retrieveTicksInBatches]
      by_cases h : l = [] ∨ B = 0
      · rcases h with h | h
        · subst h; simp
        · exact (hB.ne' h).elim
      · rw [dif_neg h]
        push_neg at h
        have hlen : 0 < l.length := List.length_pos.mpr h.1
        rw [ih (l.drop B) (by simp only [List.length_drop]; omega)]
        rw [← List.map_append, List.take_append_drop]
  intro l
  exact key l.length l le_rfl

theorem ceil_div_step (N B : ℕ) (hB : 0 < B) (hN : 0 < N) :
    (N + B - 1) / B = 1 + (N - B + B - 1) / B := by
  rcases le_or_lt N B with hle | hlt
  · have h0 : N - B = 0 := Nat.sub_eq_zero_of_le hle
    rw [h0]
    have h1 : (N + B - 1) / B = 1 :=
      Nat.div_eq_of_lt_le (by omega) (by omega)
    have h2 : (0 + B - 1) / B = 0 := Nat.div_eq_of_lt (by omega)
    omega
  · have h3 : N - B + B - 1 = N - 1 := by omega
    have h4 : N + B - 1 = N - 1 + B := by omega
    rw [h3, h4, Nat.add_div_right _ hB]
    omega

theorem batchChunks_flatten (B : ℕ) (hB : 0 < B) :
    ∀ l : List ℤ, (batchChunks l B).flatten = l := by
  have key : ∀ n (l : List ℤ), l.length ≤ n → (batchChunks l B).flatten = l := by
    intro n
    induction n with
    | zero =>
      intro l hl
      have hnil : l = [] := List.eq_nil_of_length_eq_zero (Nat.le_zero.mp hl)
      subst hnil
      rw [batchChunks]
      simp
    | succ n ih =>
      intro l hl
      rw [batchChunks]
      by_cases h : l = [] ∨ B = 0
      · rcases h with h | h
        · subst h; simp
        · exact (hB.ne' h).elim
      · rw [dif_neg h]
        push_neg at h
        have hlen : 0 < l.length := List.length_pos.mpr h.1
        rw [List.flatten_cons, ih (l.drop B) (by simp only [List.length_drop]; omega)]
        exact List.take_append_drop B l
  intro l
  exact key l.length l le_rfl

theorem batchChunks_chunk_le (B : ℕ) (hB : 0 < B) :
    ∀ l : List ℤ, ∀ c ∈ batchChunks l B, c.length ≤ B := by
  have key : ∀ n (l : List ℤ), l.length ≤ n → ∀ c ∈ batchChunks l B, c.length ≤ B := by
    intro n
    induction n with
    | zero =>
      intro l hl
      have hnil : l = [] := List.eq_nil_of_length_eq_zero (Nat.le_zero.mp hl)
      subst hnil
      rw [batchChunks]
      simp
    | succ n ih =>
      intro l hl
      rw [batchChunks]
      by_cases h : l = [] ∨ B = 0
      · rcases h with h | h
        · subst h; simp
        · exact (hB.ne' h).elim
      · rw [dif_neg h]
        push_neg at h
        have hlen : 0 < l.length := List.length_pos.mpr h.1
        intro c hc
        rcases List.mem_cons.mp hc with hc | hc
        · subst hc
          simp [List.length_take]
        · exact ih (l.drop B) (by simp only [List.length_drop]; omega) c hc
  intro l
  exact key l.length l le_rfl

theorem batchChunks_length (B : ℕ) (hB : 0 < B) :
    ∀ l : List ℤ, (batchChunks l B).length = (l.length + B - 1) / B := by
  have key : ∀ n (l : List ℤ), l.length ≤ n →
      (batchChunks l B).length = (l.length + B - 1) / B := by
    intro n
    induction n with
    | zero =>
      intro l hl
      have hnil : l = [] := List.eq_nil_of_length_eq_zero (Nat.le_zero.mp hl)
      subst hnil
      rw [batchChunks]
      simp [Nat.div_eq_of_lt (by omega : B - 1 < B)]
    | succ n ih =>
      intro l hl
      rw [batchChunks]
      by_cases h : l = [] ∨ B = 0
      · rcases h with h | h
        · subst h
          simp [Nat.div_eq_of_lt (by omega : B - 1 < B)]
        · exact (hB.ne' h).elim
      · rw [dif_neg h]
        push_neg at h
        have hlen : 0 < l.length := List.length_pos.mpr h.1
        rw [List.length_cons, ih (l.drop B) (by simp only [List.length_drop]; omega)]
        rw [List.length_drop]
        rw [ceil_div_step l.length B hB hlen]
        omega
  intro l
  exact key l.length l le_rfl

theorem batchDelayCount_eq (B : ℕ) (hB : 0 < B) :
    ∀ l : List ℤ, batchDelayCount l B = (l.length + B - 1) / B - 1 := by
  have key : ∀ n (l : List ℤ), l.length ≤ n →
      batchDelayCount l B = (l.length + B - 1) / B - 1 := by
    intro n
    induction n with
    | zero =>
      intro l hl
      have hnil : l = [] := List.eq_nil_of_length_eq_zero (Nat.le_zero.mp hl)
      subst hnil
      rw [batchDelayCount]
      simp [Nat.div_eq_of_lt (by omega : B - 1 < B)]
    | succ n ih =>
      intro l hl
      rw [batchDelayCount]
      by_cases h : l = [] ∨ B = 0
      · rcases h with h | h
        · subst h
          simp [Nat.div_eq_of_lt (by omega : B - 1 < B)]
        · exact (hB.ne' h).elim
      · rw [dif_neg h]
        push_neg at h
        have hlen : 0 < l.length := List.length_pos.mpr h.1
        rw [ih (l.drop B) (by simp only [List.length_drop]; omega)]
        rw [List.length_drop]
        by_cases hlt : B < l.length
        · rw [if_pos hlt]
          have e1 : l.length - B + B - 1 = l.length - 1 := by omega
          have e2 : l.length + B - 1 = l.length - 1 + B := by omega
          have e3 : 1 ≤ (l.length - 1) / B := (Nat.one_le_div_iff hB).mpr (by omega)
          rw [e1, e2, Nat.add_div_right _ hB]
          omega
        · rw [if_neg hlt]
          have e0 : l.length - B = 0 := by omega
          have e1 : (0 + B - 1) / B = 0 := Nat.div_eq_of_lt (by omega)
          have e2 : (l.length + B - 1) / B = 1 :=
            Nat.div_eq_of_lt_le (by omega) (by omega)
          rw [e0, e1, e2]
  intro l
  exact key l.length l le_rfl

theorem retrieve_eq_chunks (lookup : ℤ → Option TickRecord) (B : ℕ) (hB : 0 < B) :
    ∀ l : List ℤ, retrieveTicksInBatches lookup l B =
      ((batchChunks l B).map (fun c => c.map (fetchTick lookup))).flatten := by
  have key : ∀ n (l : List ℤ), l.length ≤ n → retrieveTicksInBatches lookup l B =
      ((batchChunks l B).map (fun c => c.map (fetchTick lookup))).flatten := by
    intro n
    induction n with
    | zero =>
      intro l hl
      have hnil : l = [] := List.eq_nil_of_length_eq_zero (Nat.le_zero.mp hl)
      subst hnil
      rw [retrieveTicksInBatches, batchChunks]
      simp
    | succ n ih =>
      intro l hl
      rw [retrieveTicksInBatches, batchChunks]
      by_cases h : l = [] ∨ B = 0
      · rcases h with h | h
        · subst h; simp
        · exact (hB.ne' h).elim
      · rw [dif_neg h, dif_neg h]
        push_neg at h
        have hlen : 0 < l.length := List.length_pos.mpr h.1
        rw [List.map_cons, List.flatten_cons,
          ih (l.drop B) (by simp only [List.length_drop]; omega)]
  intro l
  exact key l.length l le_rfl

/-! ## Claims -/

/-- C3, counterexample: over the four indices `[0,1,2,3]` with batch size 2
the loop performs exactly one inter-batch delay wait, not `N - 1 = 3` as the
claim states. -/
theorem claim_C3_counterexample :
    batchDelayCount [0, 1, 2, 3] 2 = 1 ∧
    batchDelayCount [0, 1, 2, 3] 2 ≠ ([0, 1, 2, 3] : List ℤ).length - 1 := by
  have h : batchDelayCount [0, 1, 2, 3] 2 = 1 := by
    rw [batchDelayCount_eq 2 (by norm_num)]
    decide
  exact ⟨h, by rw [h]; decide⟩

/-- C3, amended: the batched retrieval partitions the indices into
`ceil(N/B)` consecutive chunks of at most `B` (their concatenation is the
input), processes exactly those chunks in order, and performs
`ceil(N/B) - 1` inter-batch delay waits (which is also `0` when `N = 0`),
never delaying after the last chunk. -/
theorem claim_C3_amended (lookup : ℤ → Option TickRecord) (l : List ℤ) (B : ℕ)
    (hB : 0 < B) :
    (batchChunks l B).flatten = l ∧
    (∀ c ∈ batchChunks l B, c.length ≤ B) ∧
    (batchChunks l B).length = (l.length + B - 1) / B ∧
    batchDelayCount l B = (l.length + B - 1) / B - 1 ∧
    retrieveTicksInBatches lookup l B =
      ((batchChunks l B).map (fun c => c.map (fetchTick lookup))).flatten :=
  ⟨batchChunks_flatten B hB l, batchChunks_chunk_le B hB l, batchChunks_length B hB l,
    batchDelayCount_eq B hB l, retrieve_eq_chunks lookup B hB l⟩

/-- Witness for C3 (amended) at `l = [0,1,2,3]`, `B = 2`. -/
theorem claim_C3_amended_witness :
    0 < 2 ∧
    ((batchChunks [0, 1, 2, 3] 2).flatten = [0, 1, 2, 3] ∧
     (∀ c ∈ batchChunks [0, 1, 2, 3] 2, c.length ≤ 2) ∧
     (batchChunks [0, 1, 2, 3] 2).length = (([0, 1, 2, 3] : List ℤ).length + 2 - 1) / 2 ∧
     batchDelayCount [0, 1, 2, 3] 2 = (([0, 1, 2, 3] : List ℤ).length + 2 - 1) / 2 - 1 ∧
     retrieveTicksInBatches (fun _ => none) [0, 1, 2, 3] 2 =
       ((batchChunks [0, 1, 2, 3] 2).map
         (fun c => c.map (fetchTick (fun _ => none)))).flatten) :=
  ⟨by decide, claim_C3_amended (fun _ => none) [0, 1, 2, 3] 2 (by decide)⟩

/-- C4: the batched retrieval is length- and order-preserving — the `k`-th
output record carries the `k`-th input index — and a failed lookup yields
the zero-valued sentinel record (`initialized = false`, every liquidity and
accumulator field zero) tagged with that index; the result is total, so a
failure never aborts the batch or the retrieval. -/
theorem claim_C4 (lookup : ℤ → Option TickRecord) (l : List ℤ) (B : ℕ) (hB : 0 < B) :
    (retrieveTicksInBatches lookup l B).length = l.length ∧
    (∀ (k : ℕ) (ti : ℤ), l[k]? = some ti →
      ∃ r, (retrieveTicksInBatches lookup l B)[k]? = some r ∧ r.tickIndex = ti ∧
        (lookup ti = none → r.liquidityGross = 0 ∧ r.liquidityNet = 0 ∧
          r.feeGrowthOutside0X128 = 0 ∧ r.feeGrowthOutside1X128 = 0 ∧
          r.tickCumulativeOutside = 0 ∧ r.secondsPerLiquidityOutsideX128 = 0 ∧
          r.secondsOutside = 0 ∧ r.inited = false)) := by
  rw [retrieve_eq_map lookup B hB]
  refine ⟨List.length_map _ _, ?_⟩
  intro k ti hk
  refine ⟨fetchTick lookup ti, ?_, ?_, ?_⟩
  · rw [List.getElem?_map, hk, Option.map_some']
  · cases h : lookup ti <;> simp [fetchTick, h]
  · intro hnone
    simp [fetchTick, hnone, sentinelRecord]

/-- Witness for C4: three indices, batch size 2, the lookup failing exactly
at index 1. -/
theorem claim_C4_witness :
    0 < 2 ∧
    ((retrieveTicksInBatches (fun i => if i = 1 then none else some ⟨1, 2, 3, 4, 5, 6, 7, true⟩)
        [0, 1, 2] 2).length = ([0, 1, 2] : List ℤ).length ∧
     (∀ (k : ℕ) (ti : ℤ), ([0, 1, 2] : List ℤ)[k]? = some ti →
      ∃ r, (retrieveTicksInBatches
          (fun i => if i = 1 then none else some ⟨1, 2, 3, 4, 5, 6, 7, true⟩)
          [0, 1, 2] 2)[k]? = some r ∧ r.tickIndex = ti ∧
        ((if ti = 1 then none else some (⟨1, 2, 3, 4, 5, 6, 7, true⟩ : TickRecord)) = none →
          r.liquidityGross = 0 ∧ r.liquidityNet = 0 ∧
          r.feeGrowthOutside0X128 = 0 ∧ r.feeGrowthOutside1X128 = 0 ∧
          r.tickCumulativeOutside = 0 ∧ r.secondsPerLiquidityOutsideX128 = 0 ∧
          r.secondsOutside = 0 ∧ r.inited = false))) :=
  ⟨by decide,
    claim_C4 (fun i => if i = 1 then none else some ⟨1, 2, 3, 4, 5, 6, 7, true⟩)
      [0, 1, 2] 2 (by decide)⟩

/-- C1, evaluation at the failing input: a two-tick window with
`liquidityNet` values `5` (tick 0) and `7` (tick 10), `currentTick = 10`
(anchor at position 1), `currentLiquidity = 100`.  The code produces
`curve[0] = 95 = 100 - liquidityNet(window[0])`, while the claimed downward
recurrence `curve[i] = curve[i+1] - liquidityNet(window[i+1])` demands
`curve[0] = 100 - liquidityNet(window[1]) = 93`: the downward walk subtracts
the visited tick's own net instead of the net of the tick being crossed. -/
theorem claim_C1_code_eval :
    calculateLiquidityDistribution
      [⟨⟨0, 5, 0, 0, 0, 0, 0, true⟩, 0⟩, ⟨⟨0, 7, 0, 0, 0, 0, 0, true⟩, 10⟩]
      10 100 = some [95, 100] ∧
    (95 : ℤ) ≠ 100 - 7 := by
  constructor
  · decide
  · decide

/-- C2, evaluation at the failing input: bitmap word `1` (only the
least-significant bit set), word start tick `0`, tick spacing `1`.  The
claimed least-significant-bit-first decoding demands the tick `0`; the code
scans the most-significant-bit-first binary string and emits tick `255`. -/
theorem claim_C2_code_eval :
    extractTicksFromWord 1 0 1 = [255] ∧ extractTicksFromWord 1 0 1 ≠ [0] := by
  constructor
  · decide
  · decide

/-- C6, counterexample: on the empty window the reconstruction fails (the
closest-tick search dereferences the first element of the empty array); it
does not return the empty curve the claim promises. -/
theorem claim_C6_counterexample :
    calculateLiquidityDistribution [] 0 0 = none ∧
    calculateLiquidityDistribution [] 0 0 ≠ some [] := by
  constructor
  · decide
  · decide

/-- C6, amended: the liquidity-curve reconstruction fails exactly on the
empty window, for every current tick and every liquidity value — in
particular the liquidity value itself never causes a failure, and a
non-empty window always yields a curve. -/
theorem claim_C6_amended (ticks : List TickDataWithIndex) (currentTick L : ℤ) :
    calculateLiquidityDistribution ticks currentTick L = none ↔ ticks = [] := by
  cases ticks with
  | nil => simp [calculateLiquidityDistribution, findClosestTickIndex]
  | cons t rest => simp [calculateLiquidityDistribution, findClosestTickIndex]

/-- C7, counterexample: with tick spacing `10000` (two bitmap words), every
bitmap word readable with bit 255 of the 256-character string set (tick `0`
decoded), and every per-tick detail lookup failing, `getAllTicks` returns a
failure: the lookup failure propagates through `Promise.all` and aborts the
whole call instead of being replaced by a sentinel. -/
theorem claim_C7_counterexample :
    getAllTicks 10000 (fun _ => some (2 ^ 255)) (fun _ => none) = none := by
  decide

/-- C7, amended: a single lookup failure is recovered locally — by
substituting the zero-valued sentinel record — in the batched fetcher
`retrieveTicksInBatches` only; in the bitmap scanner's `getAllTicks` a
failed fetch propagates and aborts the overall call, as the concrete run in
the second conjunct shows. -/
theorem claim_C7_amended (lookup : ℤ → Option TickRecord) (l : List ℤ) (B : ℕ)
    (hB : 0 < B) :
    ((retrieveTicksInBatches lookup l B).length = l.length ∧
      ∀ (k : ℕ) (ti : ℤ), l[k]? = some ti → lookup ti = none →
        (retrieveTicksInBatches lookup l B)[k]? =
          some { toTickRecord := sentinelRecord, tickIndex := ti }) ∧
    getAllTicks 10000 (fun _ => some (2 ^ 255)) (fun _ => none) = none := by
  refine ⟨⟨?_, ?_⟩, by decide⟩
  · rw [retrieve_eq_map lookup B hB]
    exact List.length_map _ _
  · intro k ti hk hnone
    rw [retrieve_eq_map lookup B hB, List.getElem?_map, hk, Option.map_some']
    simp [fetchTick, hnone]

/-- Witness for C7 (amended) at `l = [5]`, `B = 1`, a lookup that always
fails. -/
theorem claim_C7_amended_witness :
    0 < 1 ∧
    (((retrieveTicksInBatches (fun _ => none) [5] 1).length = ([5] : List ℤ).length ∧
      ∀ (k : ℕ) (ti : ℤ), ([5] : List ℤ)[k]? = some ti →
        (none : Option TickRecord) = none →
        (retrieveTicksInBatches (fun _ => none) [5] 1)[k]? =
          some { toTickRecord := sentinelRecord, tickIndex := ti }) ∧
     getAllTicks 10000 (fun _ => some (2 ^ 255)) (fun _ => none) = none) :=
  ⟨by decide, claim_C7_amended (fun _ => none) [5] 1 (by decide)⟩

/-- C5, counterexample: at `price = 0` the conversions return values rather
than failing with an `InvalidInput` condition — `priceToTick` returns
`-Infinity` (here with the log model `fun _ => 1`, whose only relevant
feature, positivity at `1.0001`, matches `Math.log`), and
`priceToSqrtPriceX96` silently returns `0n` (square-root model `fun q => q`,
which is exact at `0`). -/
theorem claim_C5_counterexample :
    priceToTick (fun _ => 1) (JsNum.fin 0) = JsNum.negInf ∧
    priceToSqrtPriceX96 (fun q => q) (JsNum.fin 0) 18 6 = Except.ok 0 := by
  constructor
  · have e1 : jsLog (fun _ => (1 : ℚ)) (JsNum.fin 0) = JsNum.negInf := by
      norm_num [jsLog]
    have e2 : jsLog (fun _ => (1 : ℚ)) (JsNum.fin (10001 / 10000)) = JsNum.fin 1 := by
      norm_num [jsLog]
    rw [priceToTick, e1, e2]
    norm_num [jsDiv, jsFloor]
  · have hden : (10 : ℚ) ^ ((6 : ℤ) - 18) ≠ 0 := zpow_ne_zero _ (by norm_num)
    have e1 : jsDiv (JsNum.fin 0) (JsNum.fin ((10 : ℚ) ^ ((6 : ℤ) - 18))) =
        JsNum.fin 0 := by
      simp only [jsDiv]
      rw [if_neg hden, zero_div]
    have e2 : jsSqrt (fun q : ℚ => q) (JsNum.fin 0) = JsNum.fin 0 := by
      norm_num [jsSqrt]
    have e3 : jsMul (JsNum.fin 0) (JsNum.fin ((2 : ℚ) ^ (96 : ℕ))) = JsNum.fin 0 := by
      simp [jsMul]
    rw [priceToSqrtPriceX96, e1, e2, e3]
    simp [jsFloor, jsToBigInt]

/-- C5, amended: neither conversion validates its input.  For any log model
positive at `1.0001` (as `Math.log` is) `priceToTick` returns `-Infinity`
at price `0` and NaN at negative prices, never an `InvalidInput` failure;
`priceToSqrtPriceX96` has no guard before the square root: for any
square-root model exact at `0` (as `Math.sqrt` is) it silently returns
`0n` at price `0`, and at negative prices it fails only at the final
`BigInt` conversion of the NaN produced by the unguarded square root. -/
theorem claim_C5_amended (logFin sqrtFin : ℚ → ℚ) (d0 d1 : ℤ) (q : ℚ)
    (hlog : 0 < logFin (10001 / 10000)) (hsqrt : sqrtFin 0 = 0) :
    priceToTick logFin (JsNum.fin 0) = JsNum.negInf ∧
    (q < 0 → priceToTick logFin (JsNum.fin q) = JsNum.nan) ∧
    priceToSqrtPriceX96 sqrtFin (JsNum.fin 0) d0 d1 = Except.ok 0 ∧
    (q < 0 → priceToSqrtPriceX96 sqrtFin (JsNum.fin q) d0 d1 = Except.error ()) := by
  have hden : (10 : ℚ) ^ (d1 - d0) ≠ 0 := zpow_ne_zero _ (by norm_num)
  have hdenpos : (0 : ℚ) < (10 : ℚ) ^ (d1 - d0) := zpow_pos (by norm_num) _
  have e2 : jsLog logFin (JsNum.fin (10001 / 10000)) =
      JsNum.fin (logFin (10001 / 10000)) := by norm_num [jsLog]
  refine ⟨?_, ?_, ?_, ?_⟩
  · have e1 : jsLog logFin (JsNum.fin 0) = JsNum.negInf := by norm_num [jsLog]
    rw [priceToTick, e1, e2]
    simp [jsDiv, jsFloor, hlog.le]
  · intro hq
    have e1 : jsLog logFin (JsNum.fin q) = JsNum.nan := by simp [jsLog, hq]
    rw [priceToTick, e1, e2]
    rfl
  · have e1 : jsDiv (JsNum.fin 0) (JsNum.fin ((10 : ℚ) ^ (d1 - d0))) = JsNum.fin 0 := by
      simp only [jsDiv]
      rw [if_neg hden, zero_div]
    have e2 : jsSqrt sqrtFin (JsNum.fin 0) = JsNum.fin 0 := by norm_num [jsSqrt, hsqrt]
    rw [priceToSqrtPriceX96]
    rw [e1, e2]
    have e3 : jsMul (JsNum.fin 0) (JsNum.fin ((2 : ℚ) ^ (96 : ℕ))) = JsNum.fin 0 := by
      simp [jsMul]
    rw [e3]
    simp [jsFloor, jsToBigInt]
  · intro hq
    have e1 : jsDiv (JsNum.fin q) (JsNum.fin ((10 : ℚ) ^ (d1 - d0))) =
        JsNum.fin (q / (10 : ℚ) ^ (d1 - d0)) := by
      simp only [jsDiv]
      rw [if_neg hden]
    have e2 : jsSqrt sqrtFin (JsNum.fin (q / (10 : ℚ) ^ (d1 - d0))) = JsNum.nan := by
      simp [jsSqrt, div_neg_of_neg_of_pos hq hdenpos]
    rw [priceToSqrtPriceX96, e1, e2]
    rfl

/-- Witness for C5 (amended) with the log model `fun _ => 1`, the
square-root model `fun q => q`, decimals `18`/`6` and negative price `-1`. -/
theorem claim_C5_amended_witness :
    0 < (1 : ℚ) ∧ (fun q : ℚ => q) 0 = 0 ∧
    (priceToTick (fun _ => 1) (JsNum.fin 0) = JsNum.negInf ∧
     ((-1 : ℚ) < 0 → priceToTick (fun _ => 1) (JsNum.fin (-1)) = JsNum.nan) ∧
     priceToSqrtPriceX96 (fun q => q) (JsNum.fin 0) 18 6 = Except.ok 0 ∧
     ((-1 : ℚ) < 0 →
       priceToSqrtPriceX96 (fun q => q) (JsNum.fin (-1)) 18 6 = Except.error ())) :=
  ⟨by norm_num, rfl,
    claim_C5_amended (fun _ => 1) (fun q => q) 18 6 (-1) (by norm_num) rfl⟩

/-- C9: `tickToPriceInQuoteTokens` adjusts the raw ratio `1.0001^tick` by
the (possibly negative) power `10^(decimals1 - decimals0)` — multiplying the
non-inverted result back by that power recovers the raw ratio — and with
`zeroIsQuote = true` it returns exactly the inverse of the adjusted ratio,
`10^(decimals1 - decimals0) / 1.0001^tick`, i.e. quote units per base
unit. -/
theorem claim_C9 (tick d0 d1 : ℤ) :
    tickToPriceInQuoteTokens tick d0 d1 false * (10 : ℚ) ^ (d1 - d0) = tickToPrice tick ∧
    tickToPriceInQuoteTokens tick d0 d1 true =
      (10 : ℚ) ^ (d1 - d0) / tickToPrice tick := by
  have h10 : (10 : ℚ) ^ (d1 - d0) ≠ 0 := zpow_ne_zero _ (by norm_num)
  constructor
  · simp only [tickToPriceInQuoteTokens, Bool.false_eq_true, if_false]
    exact div_mul_cancel₀ _ h10
  · simp only [tickToPriceInQuoteTokens, if_true]
    rw [one_div_div]

/-- C10: for a positive tick spacing and a non-negative requested count,
`calculateTickIndices` returns exactly `2*floor(tickCount/2) + 1` indices
(one more than requested when `tickCount` is even), each a multiple of
`tickSpacing`, consecutive entries differing by exactly `tickSpacing`
(hence strictly ascending), with the aligned tick
`floor(currentTick/tickSpacing)*tickSpacing` at the centre position
`floor(tickCount/2)`. -/
theorem claim_C10 (currentTick tickSpacing tickCount : ℤ)
    (hs : 0 < tickSpacing) (hc : 0 ≤ tickCount) :
    (calculateTickIndices currentTick tickSpacing tickCount).length
        = 2 * (tickCount.toNat / 2) + 1 ∧
    (∀ t ∈ calculateTickIndices currentTick tickSpacing tickCount, tickSpacing ∣ t) ∧
    (calculateTickIndices currentTick tickSpacing tickCount).Chain'
      (fun a b => b = a + tickSpacing) ∧
    (calculateTickIndices currentTick tickSpacing tickCount)[(tickCount.fdiv 2).toNat]?
        = some ((currentTick.fdiv tickSpacing) * tickSpacing) := by
  have hfd : tickCount.fdiv 2 = tickCount / 2 := Int.fdiv_eq_ediv _ (by norm_num)
  have hhalf : 0 ≤ tickCount.fdiv 2 := by rw [hfd]; omega
  refine ⟨?_, ?_, ?_, ?_⟩
  · simp only [calculateTickIndices, List.length_map, List.length_range]
    rw [hfd]
    omega
  · intro t ht
    simp only [calculateTickIndices, List.mem_map, List.mem_range] at ht
    obtain ⟨k, -, rfl⟩ := ht
    exact dvd_add (dvd_mul_left _ _) (dvd_mul_left _ _)
  · rw [List.chain'_iff_get]
    intro i hi
    simp only [calculateTickIndices, List.length_map, List.length_range] at hi
    simp only [calculateTickIndices, List.get_map, List.get_range]
    push_cast
    ring
  · have hm : (tickCount.fdiv 2).toNat < (2 * tickCount.fdiv 2 + 1).toNat := by omega
    simp only [calculateTickIndices, List.getElem?_map, List.getElem?_range hm,
      Option.map_some']
    rw [Int.toNat_of_nonneg hhalf]
    norm_num

/-- Witness for C10 at `currentTick = -7`, `tickSpacing = 3`,
`tickCount = 4` (the returned window is `[-15, -12, -9, -6, -3]`). -/
theorem claim_C10_witness :
    (0 : ℤ) < 3 ∧ (0 : ℤ) ≤ 4 ∧
    ((calculateTickIndices (-7) 3 4).length = 2 * ((4 : ℤ).toNat / 2) + 1 ∧
     (∀ t ∈ calculateTickIndices (-7) 3 4, (3 : ℤ) ∣ t) ∧
     (calculateTickIndices (-7) 3 4).Chain' (fun a b => b = a + 3) ∧
     (calculateTickIndices (-7) 3 4)[((4 : ℤ).fdiv 2).toNat]?
        = some (((-7 : ℤ).fdiv 3) * 3)) :=
  ⟨by decide, by decide, claim_C10 (-7) 3 4 (by decide) (by decide)⟩

end PoolAnalyzer
